import Mathlib

/-!
Shallow embedding of the python-gedcom parser (src/gedcom/parser.py and
src/gedcom/element.py) and proofs about its specification claims.

Elements are stored in a flat store (list indexed by creation order);
index 0 is the synthetic top element.  Children and parents are stored
as indices into the store, mirroring the Python object graph.  Python
exceptions are modelled with `Except String`, carrying the exact message
string the source builds.
-/

deriving instance DecidableEq for Except

/-- A node of the parsed tree: `Element.__init__` in element.py
(level, pointer, tag, value, children list, single parent slot). -/
structure Element where
  level : Int
  pointer : String
  tag : String
  value : String
  children : List Nat
  parent : Option Nat
  deriving DecidableEq, Repr

/-- Source `Element.is_individual`: tag equals "INDI". -/
def Element.is_individual (e : Element) : Bool := e.tag = "INDI"

/-- Source `Element.is_family`: tag equals "FAM". -/
def Element.is_family (e : Element) : Bool := e.tag = "FAM"

/-- The synthetic root: `Element(-1, "", "TOP", "")` from `Gedcom.__init__`. -/
def topElement : Element := ⟨-1, "", "TOP", "", [], none⟩

/-- State of a `Gedcom` object: element store (index 0 is the top element),
`as_list` (indices of parsed elements in document order) and `as_dict`
(pointer-to-element mapping; most recent binding first, so lookup of the
head binding models Python dict overwrite-on-insert). -/
structure Gedcom where
  elems : List Element
  asList : List Nat
  asDict : List (String × Nat)
  deriving DecidableEq, Repr

/-- Read an element of the store by index (out-of-range reads, which the
source never performs, give the top element). -/
def Gedcom.get (g : Gedcom) (i : Nat) : Element := g.elems.getD i topElement

/-- The freshly initialized state of `Gedcom.__init__` before `parse` runs. -/
def emptyGedcom : Gedcom := ⟨[topElement], [], []⟩

/-- Update the store entry at index `i` (used for Python's in-place
mutation of an element's children / parent fields). -/
def updAt : List Element → Nat → (Element → Element) → List Element
  | [], _, _ => []
  | e :: es, 0, f => f e :: es
  | e :: es, n + 1, f => e :: updAt es n f

/-- Python `\s` on the characters relevant here (ASCII whitespace). -/
def isPySpace (c : Char) : Bool :=
  c = ' ' || c = '\t' || c = '\n' || c = '\x0b' || c = '\x0c' || c = '\r'

/-- ASCII decimal digit, the regex class `[0-9]`. -/
def isDigitC (c : Char) : Bool := '0' ≤ c && c ≤ '9'

/-- The regex tag class `[A-Za-z0-9_]`. -/
def isTagChar (c : Char) : Bool :=
  ('A' ≤ c && c ≤ 'Z') || ('a' ≤ c && c ≤ 'z') || isDigitC c || c = '_'

/-- Numeric value of a digit string. -/
def natOfDigits (ds : List Char) : Nat :=
  ds.foldl (fun a c => 10 * a + (c.toNat - 48)) 0

/-- The optional pointer group `(@[^@]+@ |)` of the line regex, combined
with the subsequent `pointer = line_parts[1].rstrip(' ')`: if the first
alternative matches, return the pointer without its trailing space and
the rest of the line after it; otherwise the empty group, leaving the
input in place. -/
def matchPointer (r2 : List Char) : String × List Char :=
  match r2 with
  | '@' :: r3 =>
    let inner := r3.takeWhile (fun c => c ≠ '@')
    if inner = [] then ("", r2)
    else
      match r3.drop inner.length with
      | '@' :: ' ' :: r4 => (('@' :: (inner ++ ['@'])).asString, r4)
      | _ => ("", r2)
  | _ => ("", r2)

/-- Deterministic equivalent of matching the `parse_line` regex
`^\s*(0|[1-9]+[0-9]*) (@[^@]+@ |)([A-Za-z0-9_]+)\s*(.*)\r$`
against one line (a line never contains a line feed, since the document
was split on line feeds), combined with the source's post-processing
`pointer.rstrip(' ')` and `value.lstrip(' ')`.  Greedy matching with
backtracking collapses to: maximal whitespace skip; a maximal digit run
(either exactly "0" or with no leading zero) followed by one space; the
optional pointer group; a maximal nonempty tag run; and the rest of the
line, which must end in a carriage return (consumed by the mandatory
`\r` before `$`); the captured value group is the rest minus that final
carriage return, minus its maximal whitespace prefix. -/
def matchGedLine (s : List Char) : Option (Nat × String × String × String) :=
  let s1 := s.dropWhile isPySpace
  let ds := s1.takeWhile isDigitC
  if ds = [] then none
  else if ds.head? = some '0' ∧ ds.length ≠ 1 then none
  else
    match s1.drop ds.length with
    | ' ' :: r2 =>
      let pr := matchPointer r2
      let tg := pr.2.takeWhile isTagChar
      if tg = [] then none
      else
        let r6 := pr.2.drop tg.length
        if r6.getLast? = some '\r' then
          let raw := r6.dropLast
          let g4 := raw.dropWhile isPySpace
          some (natOfDigits ds, pr.1, tg.asString,
                (g4.dropWhile (fun c => c = ' ')).asString)
        else none
    | _ => none

/-- The message of the `SyntaxError` raised for a line that fails the
grammar (parser.py lines 78-81). -/
def syntaxErrMsg (lineNum : Nat) : String :=
  "Line " ++ toString lineNum ++ " of document violates GEDCOM format" ++
  "\nSee: http://homepages.rootsweb.ancestry.com/" ++
  "~pmcbride/gedcom/55gctoc.htm"

/-- The message of the `SyntaxError` raised when a line's level exceeds
the previous element's level plus one (parser.py lines 90-93). -/
def structErrMsg (lineNum : Nat) : String :=
  "Line " ++ toString lineNum ++ " of document violates GEDCOM format" ++
  "\nLines must be no more than one level higher than " ++
  "previous line.\nSee: http://homepages.rootsweb." ++
  "ancestry.com/~pmcbride/gedcom/55gctoc.htm"

/-- The parent-resolution loop of `parse_line`:
`while parent_elem.level > level - 1: parent_elem = parent_elem.parent`,
starting from the last element; `target` is `level - 1`.  The loop is
given fuel (the store size suffices, since parent indices of a parsed
store strictly decrease). -/
def resolveParent (g : Gedcom) : Nat → Nat → Int → Nat
  | 0, idx, _ => idx
  | fuel + 1, idx, target =>
    if (g.get idx).level > target then
      resolveParent g fuel ((g.get idx).parent.getD 0) target
    else idx

/-- The element-creation block of `parse_line` ("Create element. Store
in list and dict, create children and parents."): append the new element
to the store, record it in `as_list` and (when it carries a pointer)
`as_dict`, resolve its parent by walking up from the last element, add
it to that parent's children and set its parent back-reference.  Returns
the new state and the new element's index (the next "last element"). -/
def createElement (g : Gedcom) (lastIdx : Nat) (level : Int) (ptr tg vl : String) :
    Gedcom × Nat :=
  let n := g.elems.length
  let elems1 := g.elems ++ [⟨level, ptr, tg, vl, [], none⟩]
  let dict1 := if ptr = "" then g.asDict else (ptr, n) :: g.asDict
  let p := resolveParent g n lastIdx (level - 1)
  let elems2 := updAt elems1 p
    (fun pe => ⟨pe.level, pe.pointer, pe.tag, pe.value, pe.children ++ [n], pe.parent⟩)
  let elems3 := updAt elems2 n
    (fun ce => ⟨ce.level, ce.pointer, ce.tag, ce.value, ce.children, some p⟩)
  (⟨elems3, g.asList ++ [n], dict1⟩, n)

/-- Source `Gedcom.parse_line`: match the line against the grammar, check the
depth invariant, then create and link the element. -/
def parse_line (g : Gedcom) (lineNum : Nat) (line : List Char) (lastIdx : Nat) :
    Except String (Gedcom × Nat) :=
  match matchGedLine line with
  | none => .error (syntaxErrMsg lineNum)
  | some (lvlN, ptr, tg, vl) =>
    let level : Int := lvlN
    if level > (g.get lastIdx).level + 1 then .error (structErrMsg lineNum)
    else .ok (createElement g lastIdx level ptr tg vl)

/-- The loop body of `Gedcom.parse`: feed each line in turn to
`parse_line`, threading the state, the 1-based line counter and the last
element. -/
def parseLines (lineNum : Nat) (lastIdx : Nat) (g : Gedcom) :
    List (List Char) → Except String Gedcom
  | [] => .ok g
  | l :: ls =>
    match parse_line g lineNum l lastIdx with
    | .error e => .error e
    | .ok gi => parseLines (lineNum + 1) gi.2 gi.1 ls

/-- Split a character list on line feeds (Python `str.split('\n')`:
every line feed separates, empty segments are kept). -/
def splitNl (cur : List Char) : List Char → List (List Char)
  | [] => [cur.reverse]
  | '\n' :: cs => cur.reverse :: splitNl [] cs
  | c :: cs => splitNl (c :: cur) cs

/-- Source `fd.read().split('\n')[:-1]`: the line list fed to the parse loop. -/
def pyLines (doc : String) : List (List Char) := (splitNl [] doc.toList).dropLast

/-- Source `Gedcom.parse` over the whole document text, starting from the fresh
state of `Gedcom.__init__`. -/
def parse (doc : String) : Except String Gedcom :=
  parseLines 1 0 emptyGedcom (pyLines doc)

example : (parse "0 HEAD\r\n1 SOUR FTW\r\n2 VERS 3.40\r\n").isOk = true := by decide

example : parse "0 HEAD\n1 SOUR FTW\n2 VERS 3.40\n" = .error (syntaxErrMsg 1) := by decide

/-! ## The traversal / query engine (parser.py lines 111-270) -/

/-- Dictionary lookup: `family in self.as_dict` and `self.as_dict[family]`
combined (most recent binding wins, as in a Python dict). -/
def Gedcom.dictGet (g : Gedcom) (k : String) : Option Nat :=
  g.asDict.lookup k

/-- Message of the `ValueError` in `families`, `get_ancestors` and
`get_parents` (with a trailing period). -/
def indiErrMsgDot : String := "Operation only valid for elements with INDI tag."

/-- Message of the `ValueError` in `marriages` and `marriage_years`
(no trailing period). -/
def indiErrMsg : String := "Operation only valid for elements with INDI tag"

/-- Message of the `ValueError` in `find_path_to_anc`. -/
def indErrMsg : String := "Operation only valid for elements with IND tag."

/-- Message of the `ValueError` in `get_family_members`. -/
def famErrMsg : String := "Operation only valid for elements with FAM tag."

/-- Message of the Python `IndexError` raised by `[-1]` on an empty list. -/
def indexErrMsg : String := "list index out of range"

/-- The loop body of `Gedcom.families`: keep children tagged with the
requested family type whose value resolves through `as_dict` to a
family-tagged element. -/
def familiesCore (g : Gedcom) (idx : Nat) (family_type : String) : List Nat :=
  (g.get idx).children.filterMap (fun c =>
    if (g.get c).tag = family_type then
      match g.dictGet (g.get c).value with
      | some f => if (g.get f).is_family then some f else none
      | none => none
    else none)

/-- Source `Gedcom.families(individual, family_type)`. -/
def families (g : Gedcom) (idx : Nat) (family_type : String) :
    Except String (List Nat) :=
  if !(g.get idx).is_individual then .error indiErrMsgDot
  else .ok (familiesCore g idx family_type)

/-- The member-type test of `Gedcom.get_family_members` (the chain of
`if`/`elif` computing `is_family` for one child element; anything other
than the four recognized member types behaves as "ALL"). -/
def roleMatch (mem_type tag : String) : Bool :=
  if mem_type = "PARENTS" then tag = "HUSB" || tag = "WIFE"
  else if mem_type = "HUSB" then tag = "HUSB"
  else if mem_type = "WIFE" then tag = "WIFE"
  else if mem_type = "CHIL" then tag = "CHIL"
  else tag = "HUSB" || tag = "WIFE" || tag = "CHIL"

/-- The loop body of `Gedcom.get_family_members`: keep children in the
requested role whose value is a key of `as_dict`, resolved through it. -/
def familyMembersCore (g : Gedcom) (famIdx : Nat) (mem_type : String) : List Nat :=
  (g.get famIdx).children.filterMap (fun c =>
    if roleMatch mem_type (g.get c).tag then g.dictGet (g.get c).value
    else none)

/-- Source `Gedcom.get_family_members(family, mem_type)`. -/
def get_family_members (g : Gedcom) (famIdx : Nat) (mem_type : String) :
    Except String (List Nat) :=
  if !(g.get famIdx).is_family then .error famErrMsg
  else .ok (familyMembersCore g famIdx mem_type)

/-- Innermost loop of the "NAT" branch of `Gedcom.get_parents`: scan the
relation-annotation children of a matching child-role entry; a `_FREL`
annotation with value "Natural" adds the family's WIFE members, a
`_MREL` annotation with value "Natural" adds its HUSB members (this is
what the source does, lines 213-220 of parser.py). -/
def chilRecFold (g : Gedcom) (fam : Nat) : List Nat → List Nat → Except String (List Nat)
  | acc, [] => .ok acc
  | acc, c :: cs =>
    if (g.get c).value = "Natural" then
      if (g.get c).tag = "_FREL" then
        match get_family_members g fam "WIFE" with
        | .error e => .error e
        | .ok ms => chilRecFold g fam (acc ++ ms) cs
      else if (g.get c).tag = "_MREL" then
        match get_family_members g fam "HUSB" with
        | .error e => .error e
        | .ok ms => chilRecFold g fam (acc ++ ms) cs
      else chilRecFold g fam acc cs
    else chilRecFold g fam acc cs

/-- Middle loop of the "NAT" branch of `Gedcom.get_parents`: find the
child-role (`CHIL`) entries of the family whose value is the
individual's own pointer. -/
def famRecFold (g : Gedcom) (indiPtr : String) (fam : Nat) :
    List Nat → List Nat → Except String (List Nat)
  | acc, [] => .ok acc
  | acc, fr :: frs =>
    if (g.get fr).tag = "CHIL" ∧ (g.get fr).value = indiPtr then
      match chilRecFold g fam acc ((g.get fr).children) with
      | .error e => .error e
      | .ok acc' => famRecFold g indiPtr fam acc' frs
    else famRecFold g indiPtr fam acc frs

/-- Outer loop of `Gedcom.get_parents` over the `FAMC` families: the
"NAT" branch scans child-role entries, every other parent type appends
the family's PARENTS members. -/
def famFold (g : Gedcom) (indiPtr parent_type : String) :
    List Nat → List Nat → Except String (List Nat)
  | acc, [] => .ok acc
  | acc, fam :: fams =>
    if parent_type = "NAT" then
      match famRecFold g indiPtr fam acc ((g.get fam).children) with
      | .error e => .error e
      | .ok acc' => famFold g indiPtr parent_type acc' fams
    else
      match get_family_members g fam "PARENTS" with
      | .error e => .error e
      | .ok ms => famFold g indiPtr parent_type (acc ++ ms) fams

/-- Source `Gedcom.get_parents(indi, parent_type)`. -/
def get_parents (g : Gedcom) (idx : Nat) (parent_type : String) :
    Except String (List Nat) :=
  if !(g.get idx).is_individual then .error indiErrMsgDot
  else
    match families g idx "FAMC" with
    | .error e => .error e
    | .ok famc => famFold g (g.get idx).pointer parent_type [] famc

/-- Accumulate the recursive ancestor results in order, aborting at the
first exception (`ancestors = ancestors + self.get_ancestors(parent)`). -/
def collectAnc (acc : List Nat) : List (Except String (List Nat)) → Except String (List Nat)
  | [] => .ok acc
  | .error e :: _ => .error e
  | .ok a :: rest => collectAnc (acc ++ a) rest

/-- Message standing for Python's `RecursionError` when the unguarded
recursion of `get_ancestors` / `find_path_to_anc` exceeds its fuel. -/
def recErrMsg : String := "maximum recursion depth exceeded"

/-- Source `Gedcom.get_ancestors(indi, anc_type)`, with fuel for the unguarded
recursion.  Note the source's recursive call `self.get_ancestors(parent)`
uses the default anc_type "ALL" whatever the outer anc_type was. -/
def get_ancestors (g : Gedcom) : Nat → Nat → String → Except String (List Nat)
  | 0, _, _ => .error recErrMsg
  | fuel + 1, idx, anc_type =>
    if !(g.get idx).is_individual then .error indiErrMsgDot
    else
      match get_parents g idx anc_type with
      | .error e => .error e
      | .ok parents =>
        collectAnc parents (parents.map (fun p => get_ancestors g fuel p "ALL"))

/-- Python truthiness of the `potential_path` value returned by the
recursive `find_path_to_anc` call (`None` and `[]` are falsy). -/
def pathTruthy : Option (List Nat) → Bool
  | none => false
  | some p => !p.isEmpty

/-- The `for par in parents` loop of `find_path_to_anc`: return the
first truthy recursive result, `None` when the loop falls through. -/
def pathLoop : List (Except String (Option (List Nat))) → Except String (Option (List Nat))
  | [] => .ok none
  | .error e :: _ => .error e
  | .ok r :: rest => if pathTruthy r then .ok r else pathLoop rest

/-- Source `Gedcom.find_path_to_anc(desc, anc, path)`, with fuel for the
unguarded recursion.  The `path=None` default is modelled by the empty
list, which Python's `if not path:` treats the same way.  Note the
category check raises only when `desc` is not an individual AND `anc`
is one (`not desc.is_individual and anc.is_individual`). -/
def find_path_to_anc (g : Gedcom) : Nat → Nat → Nat → List Nat →
    Except String (Option (List Nat))
  | 0, _, _, _ => .error recErrMsg
  | fuel + 1, desc, anc, path0 =>
    if !(g.get desc).is_individual ∧ (g.get anc).is_individual then
      .error indErrMsg
    else
      let path := if path0.isEmpty then [desc] else path0
      if (g.get (path.getLastD 0)).pointer = (g.get anc).pointer then
        .ok (some path)
      else
        match get_parents g desc "NAT" with
        | .error e => .error e
        | .ok parents =>
          pathLoop (parents.map (fun par =>
            find_path_to_anc g fuel par anc (path ++ [par])))

/-- One marriage tuple per child of a `MARR` event, as built by the
innermost loop of `Gedcom.marriages` (each child yields a tuple whose
date is set only if it is a `DATE` child and whose place is set only if
it is a `PLAC` child). -/
def marrTuple (g : Gedcom) (md : Nat) : String × String :=
  (if (g.get md).tag = "DATE" then (g.get md).value else "",
   if (g.get md).tag = "PLAC" then (g.get md).value else "")

/-- Source `Gedcom.marriages(individual)`. -/
def marriages (g : Gedcom) (idx : Nat) : Except String (List (String × String)) :=
  if !(g.get idx).is_individual then .error indiErrMsg
  else
    match families g idx "FAMS" with
    | .error e => .error e
    | .ok fams =>
      .ok (fams.flatMap (fun f =>
        (g.get f).children.flatMap (fun fd =>
          if (g.get fd).tag = "MARR" then
            (g.get fd).children.map (fun md => marrTuple g md)
          else [])))

/-- Python `str.split()` with no argument: split on whitespace runs,
discarding empty pieces. -/
def pySplitAux (cur : List Char) : List Char → List String
  | [] => if cur.isEmpty then [] else [cur.reverse.asString]
  | c :: cs =>
    if isPySpace c then
      if cur.isEmpty then pySplitAux [] cs
      else cur.reverse.asString :: pySplitAux [] cs
    else pySplitAux (c :: cur) cs

/-- Python `str.split()` with no argument. -/
def pySplit (s : String) : List String := pySplitAux [] s.toList

/-- Digit run of Python `int()`: at least one ASCII digit, single
underscores allowed between digits. -/
def pyDigitsRest : List Char → Nat → Option Nat
  | [], acc => some acc
  | '_' :: c :: cs, acc =>
    if isDigitC c then pyDigitsRest cs (10 * acc + (c.toNat - 48)) else none
  | ['_'], _ => none
  | c :: cs, acc =>
    if isDigitC c then pyDigitsRest cs (10 * acc + (c.toNat - 48)) else none

/-- Leading digit of Python `int()`. -/
def pyDigits : List Char → Option Nat
  | [] => none
  | c :: cs => if isDigitC c then pyDigitsRest cs (c.toNat - 48) else none

/-- Python `int(s)` on an ASCII string: optional surrounding whitespace,
optional sign, then digits; `none` models the `ValueError`. -/
def pyInt (s : String) : Option Int :=
  let t := ((s.toList.dropWhile isPySpace).reverse.dropWhile isPySpace).reverse
  match t with
  | '+' :: rest => (pyDigits rest).map (fun n => (n : Int))
  | '-' :: rest => (pyDigits rest).map (fun n => -(n : Int))
  | rest => (pyDigits rest).map (fun n => (n : Int))

/-- Innermost loop of `Gedcom.marriage_years`: for each `DATE` child of
a `MARR` event, take the last whitespace-separated token of its value —
`marrdata.value.split()[-1]` raises an `IndexError` when the value has
no tokens, since the subscript is outside the `try` — and append it as
an integer when `int()` accepts it, silently skipping it otherwise. -/
def yearFold (g : Gedcom) : List Int → List Nat → Except String (List Int)
  | acc, [] => .ok acc
  | acc, md :: mds =>
    if (g.get md).tag = "DATE" then
      match (pySplit (g.get md).value).getLast? with
      | none => .error indexErrMsg
      | some tok =>
        match pyInt tok with
        | some n => yearFold g (acc ++ [n]) mds
        | none => yearFold g acc mds
    else yearFold g acc mds

/-- Middle loop of `Gedcom.marriage_years` over a family's children. -/
def marrFold (g : Gedcom) : List Int → List Nat → Except String (List Int)
  | acc, [] => .ok acc
  | acc, fd :: fds =>
    if (g.get fd).tag = "MARR" then
      match yearFold g acc ((g.get fd).children) with
      | .error e => .error e
      | .ok acc' => marrFold g acc' fds
    else marrFold g acc fds

/-- Outer loop of `Gedcom.marriage_years` over the `FAMS` families. -/
def famsFold (g : Gedcom) : List Int → List Nat → Except String (List Int)
  | acc, [] => .ok acc
  | acc, f :: fs =>
    match marrFold g acc ((g.get f).children) with
    | .error e => .error e
    | .ok acc' => famsFold g acc' fs

/-- Source `Gedcom.marriage_years(individual)`. -/
def marriage_years (g : Gedcom) (idx : Nat) : Except String (List Int) :=
  if !(g.get idx).is_individual then .error indiErrMsg
  else
    match families g idx "FAMS" with
    | .error e => .error e
    | .ok fams => famsFold g [] fams

/-! ## Concrete documents and stores used by the claims -/

/-- The parsed store of a document, for documents known to parse. -/
def parseD (doc : String) : Gedcom := (parse doc).toOption.getD emptyGedcom

/-- Is `pat` a prefix of the second list. -/
def hasPrefixC : List Char → List Char → Bool
  | [], _ => true
  | _ :: _, [] => false
  | p :: ps, c :: cs => p = c && hasPrefixC ps cs

/-- Does `pat` occur contiguously inside the second list. -/
def hasSubC (pat : List Char) : List Char → Bool
  | [] => pat.isEmpty
  | c :: cs => hasPrefixC pat (c :: cs) || hasSubC pat cs

/-- Family F with husband, wife, and two child entries: X (element 1,
pointer @I1@) whose child-role entry carries `_FREL Natural`, and Y
(element 3, pointer @I2@) whose child-role entry carries no relation
annotation.  Elements: 1 X, 3 Y, 5 husband @H1@, 6 wife @W1@, 7 family
@F1@, 8-12 the family's membership entries. -/
def c1doc : String :=
  "0 @I1@ INDI\r\n1 FAMC @F1@\r\n0 @I2@ INDI\r\n1 FAMC @F1@\r\n" ++
  "0 @H1@ INDI\r\n0 @W1@ INDI\r\n0 @F1@ FAM\r\n1 HUSB @H1@\r\n" ++
  "1 WIFE @W1@\r\n1 CHIL @I1@\r\n2 _FREL Natural\r\n1 CHIL @I2@\r\n"

/-- The parsed store of `c1doc`. -/
def c1g : Gedcom := parseD c1doc

/-- The spec's three-line header document with bare line feeds. -/
def c2lf : String := "0 HEAD\n1 SOUR FTW\n2 VERS 3.40\n"

/-- The same three lines with carriage-return line feeds. -/
def c2crlf : String := "0 HEAD\r\n1 SOUR FTW\r\n2 VERS 3.40\r\n"

/-- The parsed store of `c2crlf`. -/
def c2g : Gedcom := parseD c2crlf

/-- A family with two child-role entries referencing the same
individual (element 1); elements: 1 @I1@, 2 the family @F1@. -/
def c6doc : String :=
  "0 @I1@ INDI\r\n0 @F1@ FAM\r\n1 CHIL @I1@\r\n1 CHIL @I1@\r\n"

/-- The parsed store of `c6doc`. -/
def c6g : Gedcom := parseD c6doc

/-- An individual (element 1) who is a spouse in family @F1@ (element 3)
whose marriage event has a `DATE` child with an empty value. -/
def c7doc : String :=
  "0 @I1@ INDI\r\n1 FAMS @F1@\r\n0 @F1@ FAM\r\n1 MARR\r\n2 DATE\r\n"

/-- The parsed store of `c7doc`. -/
def c7g : Gedcom := parseD c7doc

/-- An individual whose marriage event has one parsable date
("28 Feb 2002") and one unparsable date ("FooBar"). -/
def c7okdoc : String :=
  "0 @I1@ INDI\r\n1 FAMS @F1@\r\n0 @F1@ FAM\r\n1 MARR\r\n" ++
  "2 DATE 28 Feb 2002\r\n2 DATE FooBar\r\n"

/-- The parsed store of `c7okdoc`. -/
def c7okg : Gedcom := parseD c7okdoc

/-- A family-tagged record (element 1, pointer @F1@) and an
individual-tagged record (element 2, pointer @I1@). -/
def c8doc : String := "0 @F1@ FAM\r\n0 @I1@ INDI\r\n"

/-- The parsed store of `c8doc`. -/
def c8g : Gedcom := parseD c8doc

/-- A family-tagged record and an individual-tagged record, neither of
which carries a pointer (both identifier fields are the empty string). -/
def c10doc : String := "0 FAM\r\n0 INDI\r\n"

/-- The parsed store of `c10doc`. -/
def c10g : Gedcom := parseD c10doc

/-! ## Claim C1 -/

/-- Claim C1 evaluated on the code: in `c1g`, the family's husband
member is element 5 (@H1@) and its wife member is element 6 (@W1@), yet
`get_parents(X, "NAT")` for X whose child-role entry carries
`_FREL Natural` returns the WIFE member [6], not the husband — the
source's `_FREL` branch appends the family's WIFE members (parser.py
lines 215-217).  For Y, whose child-role entry carries no relation
annotation, `get_parents(Y, "NAT")` returns the empty list, as the
claim states. -/
theorem C1_code_eval :
    (parse c1doc).isOk = true ∧
    familyMembersCore c1g 7 "HUSB" = [5] ∧ (c1g.get 5).pointer = "@H1@" ∧
    familyMembersCore c1g 7 "WIFE" = [6] ∧ (c1g.get 6).pointer = "@W1@" ∧
    get_parents c1g 1 "NAT" = .ok [6] ∧
    get_parents c1g 3 "NAT" = .ok [] := by decide

/-! ## Claim C2 -/

/-- Claim C2 evaluated on the code: parsing the three-line document with
bare line feeds fails on line 1 with a `SyntaxError`, because the line
regex ends in `\r$` and so demands a carriage return at the end of every
line.  With carriage-return line feeds the same three lines parse into
exactly 3 records at levels 0, 1, 2 with parent chain
top → HEAD → SOUR → VERS, which is what the claim describes. -/
theorem C2_code_eval :
    parse c2lf = .error (syntaxErrMsg 1) ∧
    (parse c2crlf).isOk = true ∧
    c2g.asList = [1, 2, 3] ∧
    (c2g.get 0).level = -1 ∧ (c2g.get 0).parent = none ∧
    (c2g.get 1).level = 0 ∧ (c2g.get 1).tag = "HEAD" ∧ (c2g.get 1).parent = some 0 ∧
    (c2g.get 2).level = 1 ∧ (c2g.get 2).tag = "SOUR" ∧ (c2g.get 2).parent = some 1 ∧
    (c2g.get 3).level = 2 ∧ (c2g.get 3).tag = "VERS" ∧ (c2g.get 3).parent = some 2 := by
  decide

/-! ## Claim C6: counterexample -/

/-- Claim C6 counterexample: in `c6g` the family (element 2) has two
child-role entries both referencing element 1, so
`get_family_members(fam, "ALL")` returns [1, 1], which contains a
duplicate entry — refuting the claim's "contains no duplicate entries"
conjunct. -/
theorem C6_counterexample :
    (parse c6doc).isOk = true ∧
    get_family_members c6g 2 "ALL" = .ok [1, 1] ∧
    ¬ ([1, 1] : List Nat).Nodup := by decide

/-! ## Claim C7: counterexample -/

/-- Claim C7 counterexample: `marriage_years` raises on `c7g`, whose
marriage event has a `DATE` child with an empty value —
`marrdata.value.split()[-1]` raises an `IndexError` outside the
`try`/`except ValueError`, refuting "marriage_years never raises". -/
theorem C7_counterexample :
    (parse c7doc).isOk = true ∧
    (c7g.get 1).is_individual = true ∧
    marriage_years c7g 1 = .error indexErrMsg := by decide

/-! ## Claim C8: counterexample -/

/-- Claim C8 counterexample: `find_path_to_anc` does not raise whenever
its descendant argument is not individual-tagged: with both arguments
the family record of `c8g` (element 1, not an individual), the category
check `not desc.is_individual and anc.is_individual` is false and the
equal pointers make it return the path [desc] instead of raising. -/
theorem C8_counterexample :
    (parse c8doc).isOk = true ∧
    (c8g.get 1).is_individual = false ∧
    find_path_to_anc c8g 5 1 1 [] = .ok (some [1]) := by decide

/-! ## Substring lemmas for the error-message claims -/

theorem toList_append_eq (s t : String) : (s ++ t).toList = s.toList ++ t.toList := rfl

theorem hasPrefixC_self_append (x b : List Char) : hasPrefixC x (x ++ b) = true := by
  induction x with
  | nil => rfl
  | cons c cs ih => simp [hasPrefixC, ih]

theorem hasSubC_self_append (x b : List Char) : hasSubC x (x ++ b) = true := by
  cases x with
  | nil => cases b with
    | nil => rfl
    | cons c cs => simp [hasSubC, hasPrefixC]
  | cons c cs => simp [hasSubC, hasPrefixC, hasPrefixC_self_append]

theorem hasSubC_mid (a x b : List Char) : hasSubC x (a ++ (x ++ b)) = true := by
  induction a with
  | nil => simpa using hasSubC_self_append x b
  | cons c cs ih => simp [hasSubC, ih]

/-- The syntax-error message contains the decimal line number. -/
theorem syntaxErrMsg_hasNum (n : Nat) :
    hasSubC (toString n).toList (syntaxErrMsg n).toList = true := by
  have h : (syntaxErrMsg n).toList =
      "Line ".toList ++ ((toString n).toList ++
        (" of document violates GEDCOM format".toList ++
         ("\nSee: http://homepages.rootsweb.ancestry.com/".toList ++
          "~pmcbride/gedcom/55gctoc.htm".toList))) := by
    simp [syntaxErrMsg, toList_append_eq, List.append_assoc]
  rw [h]
  exact hasSubC_mid _ _ _

/-- The structural-error message contains the decimal line number. -/
theorem structErrMsg_hasNum (n : Nat) :
    hasSubC (toString n).toList (structErrMsg n).toList = true := by
  have h : (structErrMsg n).toList =
      "Line ".toList ++ ((toString n).toList ++
        (" of document violates GEDCOM format".toList ++
         ("\nLines must be no more than one level higher than ".toList ++
          ("previous line.\nSee: http://homepages.rootsweb.".toList ++
           "ancestry.com/~pmcbride/gedcom/55gctoc.htm".toList)))) := by
    simp [structErrMsg, toList_append_eq, List.append_assoc]
  rw [h]
  exact hasSubC_mid _ _ _

/-! ## Claim C5 -/

set_option maxRecDepth 4000

/-- Claim C5: while building the tree, a grammatically valid line whose
level exceeds the previous record's level plus one makes `parse_line`
fail with the structural `SyntaxError` naming that line's 1-based number
(the message contains its decimal rendering), while a level less than
or equal to the previous level plus one is accepted (a decrease of any
amount included); and the concrete two-line document whose levels are
0 then 2 fails with the structural error on line 2. -/
theorem C5_depth_check :
    (∀ (g : Gedcom) (n : Nat) (line : List Char) (lastIdx : Nat)
        (lvl : Nat) (ptr tg vl : String),
      matchGedLine line = some (lvl, ptr, tg, vl) →
      (((lvl : Int) > (g.get lastIdx).level + 1 →
          parse_line g n line lastIdx = .error (structErrMsg n) ∧
          hasSubC (toString n).toList (structErrMsg n).toList = true) ∧
       ((lvl : Int) ≤ (g.get lastIdx).level + 1 →
          (parse_line g n line lastIdx).isOk = true))) ∧
    parse "0 HEAD\r\n2 VERS 3.40\r\n" = .error (structErrMsg 2) := by
  constructor
  · intro g n line lastIdx lvl ptr tg vl hm
    constructor
    · intro hgt
      refine ⟨?_, structErrMsg_hasNum n⟩
      unfold parse_line
      rw [hm]
      simp only [if_pos hgt]
    · intro hle
      unfold parse_line
      rw [hm]
      simp only [if_neg (not_lt.mpr hle)]
      rfl
  · decide

/-- Witness for C5: the second line of the concrete scenario — level 2
after a level-0 line — satisfies the hypotheses and fails structurally;
and a level decrease (level 0 after level 2 is impossible here, so level
1 then 0) is accepted. -/
theorem C5_witness :
    matchGedLine "2 VERS 3.40\r".toList = some (2, "", "VERS", "3.40") ∧
    ((2 : Int) > ((parseD "0 HEAD\r\n").get 1).level + 1 ∧
      parse_line (parseD "0 HEAD\r\n") 2 "2 VERS 3.40\r".toList 1 =
        .error (structErrMsg 2)) ∧
    ((0 : Int) ≤ ((parseD "0 HEAD\r\n").get 1).level + 1 ∧
      (parse_line (parseD "0 HEAD\r\n") 2 "0 TRLR\r".toList 1).isOk = true) := by
  refine ⟨by decide, ⟨by decide, ?_⟩, ⟨by decide, ?_⟩⟩
  · exact ((C5_depth_check.1 (parseD "0 HEAD\r\n") 2 "2 VERS 3.40\r".toList 1
      2 "" "VERS" "3.40" (by decide)).1 (by decide)).1
  · exact (C5_depth_check.1 (parseD "0 HEAD\r\n") 2 "0 TRLR\r".toList 1
      0 "" "TRLR" "" (by decide)).2 (by decide)

/-! ## Claim C9 -/

/-- Claim C9 counterexample: the malformed line "xyzzy" fails the
grammar and the raised `SyntaxError` carries a message that does not
contain the line's raw text, refuting the claim that the error payload
carries the offending line's content. -/
theorem C9_counterexample :
    parse "xyzzy\n" = .error (syntaxErrMsg 1) ∧
    hasSubC "xyzzy".toList (syntaxErrMsg 1).toList = false := by decide

/-- Claim C9 as amended: every line that fails the grammar makes
`parse_line` raise a `SyntaxError` whose message carries the 1-based
line number (its decimal rendering occurs in the message) — but the
message is a fixed format-violation text plus a documentation URL and
does not include the offending line's own text. -/
theorem C9_malformed_line (g : Gedcom) (n : Nat) (line : List Char) (lastIdx : Nat)
    (hm : matchGedLine line = none) :
    parse_line g n line lastIdx = .error (syntaxErrMsg n) ∧
    hasSubC (toString n).toList (syntaxErrMsg n).toList = true := by
  constructor
  · unfold parse_line
    rw [hm]
  · exact syntaxErrMsg_hasNum n

/-- Witness for C9_malformed_line at the concrete malformed line
"xyzzy" as line 3 of some document state. -/
theorem C9_witness :
    matchGedLine "xyzzy".toList = none ∧
    parse_line emptyGedcom 3 "xyzzy".toList 0 = .error (syntaxErrMsg 3) ∧
    hasSubC (toString 3).toList (syntaxErrMsg 3).toList = true :=
  ⟨by decide, C9_malformed_line emptyGedcom 3 "xyzzy".toList 0 (by decide)⟩

/-! ## Claim C8 -/

/-- Claim C8 as amended: every traversal operation except
`find_path_to_anc` raises its category `ValueError` whenever its primary
argument is a record of the wrong tag category; `find_path_to_anc`
raises the category error exactly in the narrower case where its
descendant argument is not individual-tagged AND its ancestor argument
is individual-tagged.  (The operations are read-only: in this embedding
they are pure functions of the store and return no modified store, so
the tree and registry are unchanged whether or not they raise.) -/
theorem C8_category_errors :
    (∀ (g : Gedcom) (i : Nat) (t : String), (g.get i).is_individual = false →
        families g i t = .error indiErrMsgDot) ∧
    (∀ (g : Gedcom) (i : Nat) (t : String), (g.get i).is_individual = false →
        get_parents g i t = .error indiErrMsgDot) ∧
    (∀ (g : Gedcom) (fuel i : Nat) (t : String), (g.get i).is_individual = false →
        get_ancestors g (fuel + 1) i t = .error indiErrMsgDot) ∧
    (∀ (g : Gedcom) (i : Nat), (g.get i).is_individual = false →
        marriages g i = .error indiErrMsg) ∧
    (∀ (g : Gedcom) (i : Nat), (g.get i).is_individual = false →
        marriage_years g i = .error indiErrMsg) ∧
    (∀ (g : Gedcom) (f : Nat) (t : String), (g.get f).is_family = false →
        get_family_members g f t = .error famErrMsg) ∧
    (∀ (g : Gedcom) (fuel d a : Nat) (p : List Nat),
        (g.get d).is_individual = false → (g.get a).is_individual = true →
        find_path_to_anc g (fuel + 1) d a p = .error indErrMsg) := by
  refine ⟨?_, ?_, ?_, ?_, ?_, ?_, ?_⟩
  · intro g i t h; simp [families, h]
  · intro g i t h; simp [get_parents, h]
  · intro g fuel i t h; simp [get_ancestors, h]
  · intro g i h; simp [marriages, h]
  · intro g i h; simp [marriage_years, h]
  · intro g f t h; simp [get_family_members, Element.is_family] at h ⊢; simp [h]
  · intro g fuel d a p hd ha; simp [find_path_to_anc, hd, ha]

/-- Witness for C8_category_errors on the concrete store `c8g`
(element 1 family-tagged, element 2 individual-tagged): each operation
applied to the wrong category yields its category error. -/
theorem C8_witness :
    families c8g 1 "FAMS" = .error indiErrMsgDot ∧
    get_parents c8g 1 "ALL" = .error indiErrMsgDot ∧
    get_ancestors c8g 4 1 "ALL" = .error indiErrMsgDot ∧
    marriages c8g 1 = .error indiErrMsg ∧
    marriage_years c8g 1 = .error indiErrMsg ∧
    get_family_members c8g 2 "ALL" = .error famErrMsg ∧
    find_path_to_anc c8g 4 1 2 [] = .error indErrMsg :=
  ⟨C8_category_errors.1 c8g 1 "FAMS" (by decide),
   C8_category_errors.2.1 c8g 1 "ALL" (by decide),
   C8_category_errors.2.2.1 c8g 3 1 "ALL" (by decide),
   C8_category_errors.2.2.2.1 c8g 1 (by decide),
   C8_category_errors.2.2.2.2.1 c8g 1 (by decide),
   C8_category_errors.2.2.2.2.2.1 c8g 2 "ALL" (by decide),
   C8_category_errors.2.2.2.2.2.2 c8g 3 1 2 [] (by decide) (by decide)⟩

/-! ## Claim C10: counterexample -/

/-- Claim C10 counterexample: two records with equal (empty) pointer
fields for which `find_path_to_anc` does NOT return [desc]: in `c10g`,
element 1 is family-tagged and element 2 individual-tagged, both with
empty pointer, and the call raises the category `ValueError` before the
equal-pointer check can return. -/
theorem C10_counterexample :
    (parse c10doc).isOk = true ∧
    (c10g.get 1).pointer = (c10g.get 2).pointer ∧
    find_path_to_anc c10g 5 1 2 [] = .error indErrMsg := by decide

/-- Claim C10 as amended: for records `desc` and `anc` with equal
pointer fields (the empty string included), and on which the category
check does not fire (that is, unless `desc` is not individual-tagged
while `anc` is), `find_path_to_anc` returns the single-element path
[desc] immediately: one unit of fuel suffices, so no parent traversal
happens. -/
theorem C10_equal_pointer (g : Gedcom) (fuel d a : Nat)
    (hcat : ¬((!(g.get d).is_individual) = true ∧ (g.get a).is_individual = true))
    (hp : (g.get d).pointer = (g.get a).pointer) :
    find_path_to_anc g (fuel + 1) d a [] = .ok (some [d]) := by
  unfold find_path_to_anc
  rw [if_neg hcat]
  simp [List.getLastD, hp]

/-- Witness for C10_equal_pointer: both arguments the pointer-less
individual record of `c10g`; with fuel 1 the call returns [desc]. -/
theorem C10_witness :
    (c10g.get 2).pointer = (c10g.get 2).pointer ∧
    find_path_to_anc c10g 1 2 2 [] = .ok (some [2]) :=
  ⟨rfl, C10_equal_pointer c10g 0 2 2 (by decide) rfl⟩

/-! ## Claim C4: the level invariant of parsed trees -/

theorem updAt_length (l : List Element) (i : Nat) (f : Element → Element) :
    (updAt l i f).length = l.length := by
  induction l generalizing i with
  | nil => rfl
  | cons e es ih =>
    cases i with
    | zero => rfl
    | succ m => simp [updAt, ih]

theorem getD_updAt_ne (l : List Element) (i j : Nat) (f : Element → Element)
    (d : Element) (h : i ≠ j) : (updAt l i f).getD j d = l.getD j d := by
  induction l generalizing i j with
  | nil => rfl
  | cons e es ih =>
    cases i with
    | zero =>
      cases j with
      | zero => exact absurd rfl h
      | succ m => rfl
    | succ m =>
      cases j with
      | zero => rfl
      | succ k =>
        simp only [updAt, List.getD_cons_succ]
        exact ih m k (fun hh => h (by omega))

theorem getD_updAt_self (l : List Element) (i : Nat) (f : Element → Element)
    (d : Element) (h : i < l.length) : (updAt l i f).getD i d = f (l.getD i d) := by
  induction l generalizing i with
  | nil => simp at h
  | cons e es ih =>
    cases i with
    | zero => rfl
    | succ m =>
      simp only [updAt, List.getD_cons_succ]
      exact ih m (by simpa using h)

theorem getD_append_lt (l : List Element) (e : Element) (j : Nat) (d : Element)
    (h : j < l.length) : (l ++ [e]).getD j d = l.getD j d := by
  induction l generalizing j with
  | nil => simp at h
  | cons x xs ih =>
    cases j with
    | zero => rfl
    | succ m =>
      simp only [List.cons_append, List.getD_cons_succ]
      exact ih m (by simpa using h)

theorem getD_append_len (l : List Element) (e : Element) (d : Element) :
    (l ++ [e]).getD l.length d = e := by
  induction l with
  | nil => rfl
  | cons x xs ih => exact ih

/-- The structural invariant the tree builder maintains: the store is
nonempty, index 0 is the synthetic root at level −1 with no parent, and
every other element has exactly one parent, created earlier, whose level
is its own level minus one. -/
def StoreInv (g : Gedcom) : Prop :=
  0 < g.elems.length ∧ (g.get 0).level = -1 ∧ (g.get 0).parent = none ∧
  ∀ i, 0 < i → i < g.elems.length →
    ∃ p, (g.get i).parent = some p ∧ p < i ∧ (g.get p).level + 1 = (g.get i).level

theorem storeInv_empty : StoreInv emptyGedcom := by
  refine ⟨by decide, rfl, rfl, ?_⟩
  intro i h1 h2
  have hlen : emptyGedcom.elems.length = 1 := rfl
  omega

/-- Under the store invariant, the parent-resolution loop started at a
valid element whose level is at least the target (and target ≥ −1, the
root's level) stops at an element whose level is exactly the target. -/
theorem resolveParent_spec (g : Gedcom) (hs : StoreInv g) (fuel : Nat) :
    ∀ (idx : Nat) (target : Int), idx < g.elems.length → idx + 1 ≤ fuel →
    (-1 : Int) ≤ target → target ≤ (g.get idx).level →
    resolveParent g fuel idx target < g.elems.length ∧
    (g.get (resolveParent g fuel idx target)).level = target := by
  induction fuel with
  | zero => intro idx target _ hf _ _; omega
  | succ n ih =>
    intro idx target hlt hf hm1 hle
    by_cases hgt : (g.get idx).level > target
    · have hidx0 : idx ≠ 0 := by
        intro h0
        rw [h0, hs.2.1] at hgt
        omega
      obtain ⟨p, hp, hplt, hpl⟩ := hs.2.2.2 idx (Nat.pos_of_ne_zero hidx0) hlt
      have hgd : (g.get idx).parent.getD 0 = p := by rw [hp]; rfl
      rw [resolveParent, if_pos hgt, hgd]
      exact ih p target (lt_trans hplt hlt) (by omega) hm1 (by omega)
    · rw [resolveParent, if_neg hgt]
      exact ⟨hlt, by omega⟩

/-- Extending a store satisfying the invariant with one element whose
resolved parent `P` is valid and one level below it, where the update
`fc` applied to the parent entry changes neither level nor parent and
the update `fp` applied to the new element `E` keeps its level and sets
its parent to `P`, preserves the invariant. -/
theorem storeInv_extend (g : Gedcom) (A : List Nat) (D : List (String × Nat))
    (E : Element) (P : Nat) (fc fp : Element → Element)
    (hs : StoreInv g)
    (hfc : ∀ x, (fc x).level = x.level ∧ (fc x).parent = x.parent)
    (hfpl : (fp E).level = E.level) (hfpp : (fp E).parent = some P)
    (hPlt : P < g.elems.length)
    (hElvl : (g.get P).level + 1 = E.level) :
    StoreInv ⟨updAt (updAt (g.elems ++ [E]) P fc) g.elems.length fp, A, D⟩ := by
  set N := g.elems.length with hN
  set L := updAt (updAt (g.elems ++ [E]) P fc) N fp with hL
  have hlen1 : (g.elems ++ [E]).length = N + 1 := by simp
  have hlen : L.length = N + 1 := by
    rw [hL, updAt_length, updAt_length, hlen1]
  have hget : ∀ j, (Gedcom.get ⟨L, A, D⟩ j) = L.getD j topElement := fun j => rfl
  -- entries below the new index keep their level and parent
  have hpre : ∀ j, j < N → (L.getD j topElement).level = (g.get j).level ∧
      (L.getD j topElement).parent = (g.get j).parent := by
    intro j hj
    rw [hL, getD_updAt_ne _ N j fp topElement (by omega)]
    by_cases hjP : j = P
    · subst hjP
      rw [getD_updAt_self _ j fc topElement (by rw [hlen1]; omega),
        getD_append_lt _ _ _ _ hj]
      exact hfc (g.elems.getD j topElement)
    · rw [getD_updAt_ne _ P j fc topElement (fun hh => hjP hh.symm),
        getD_append_lt _ _ _ _ hj]
      exact ⟨rfl, rfl⟩
  -- the new entry has E's level and parent P
  have hnew : (L.getD N topElement).level = E.level ∧
      (L.getD N topElement).parent = some P := by
    rw [hL, getD_updAt_self _ N fp topElement (by rw [updAt_length, hlen1]; omega),
      getD_updAt_ne _ P N fc topElement (by omega), hN, getD_append_len]
    exact ⟨hfpl, hfpp⟩
  have hN0 : 0 < N := hs.1
  refine ⟨?_, ?_, ?_, ?_⟩
  · show 0 < L.length
    omega
  · rw [hget 0, (hpre 0 hN0).1]; exact hs.2.1
  · rw [hget 0, (hpre 0 hN0).2]; exact hs.2.2.1
  · intro i hi0 hiN1
    have hiN1' : i < N + 1 := by
      have := hlen
      simpa [this] using hiN1
    rw [hget i]
    by_cases hiN : i = N
    · subst hiN
      refine ⟨P, hnew.2, hPlt, ?_⟩
      rw [hget P, (hpre P hPlt).1, hnew.1]
      exact hElvl
    · have hi : i < N := by omega
      obtain ⟨p, hp, hplt, hpl⟩ := hs.2.2.2 i hi0 hi
      refine ⟨p, ?_, hplt, ?_⟩
      · rw [(hpre i hi).2]; exact hp
      · rw [hget p, (hpre p (lt_trans hplt hi)).1, (hpre i hi).1]; exact hpl

/-- One `parse_line` step preserves the store invariant, and the new
last element is a valid index. -/
theorem parse_line_inv (g : Gedcom) (n : Nat) (line : List Char) (lastIdx : Nat)
    (hs : StoreInv g) (hl : lastIdx < g.elems.length) (g' : Gedcom) (idx' : Nat)
    (h : parse_line g n line lastIdx = .ok (g', idx')) :
    StoreInv g' ∧ idx' < g'.elems.length := by
  unfold parse_line at h
  cases hm : matchGedLine line with
  | none => rw [hm] at h; simp at h
  | some q =>
    obtain ⟨lvl, ptr, tg, vl⟩ := q
    rw [hm] at h
    by_cases hgt : (lvl : Int) > (g.get lastIdx).level + 1
    · simp only [if_pos hgt] at h
      simp at h
    · simp only [if_neg hgt, createElement, Except.ok.injEq, Prod.mk.injEq] at h
      obtain ⟨hg', hidx'⟩ := h
      obtain ⟨hPlt, hPlvl⟩ := resolveParent_spec g hs g.elems.length lastIdx
        ((lvl : Int) - 1) hl hl (by omega) (by omega)
      have hsi : StoreInv g' := by
        rw [← hg']
        exact storeInv_extend g _ _ ⟨(lvl : Int), ptr, tg, vl, [], none⟩
          (resolveParent g g.elems.length lastIdx ((lvl : Int) - 1)) _ _
          hs (fun x => ⟨rfl, rfl⟩) rfl rfl hPlt
          (by show (g.get _).level + 1 = (lvl : Int); rw [hPlvl]; omega)
      have hlen : g'.elems.length = g.elems.length + 1 := by
        rw [← hg']
        simp [updAt_length]
      refine ⟨hsi, ?_⟩
      rw [hlen, ← hidx']
      omega

/-- The parse loop preserves the store invariant. -/
theorem parseLines_inv : ∀ (ls : List (List Char)) (n lastIdx : Nat) (g : Gedcom),
    StoreInv g → lastIdx < g.elems.length →
    ∀ gout, parseLines n lastIdx g ls = .ok gout → StoreInv gout := by
  intro ls
  induction ls with
  | nil =>
    intro n li g hs _ gout h
    simp only [parseLines, Except.ok.injEq] at h
    rw [← h]; exact hs
  | cons l ls ih =>
    intro n li g hs hl gout h
    unfold parseLines at h
    cases hp : parse_line g n l li with
    | error e => rw [hp] at h; simp at h
    | ok gi =>
      rw [hp] at h
      obtain ⟨g1, i1⟩ := gi
      obtain ⟨hs', hl'⟩ := parse_line_inv g n l li hs hl g1 i1 hp
      exact ih (n + 1) i1 g1 hs' hl' gout h

/-- Claim C4: for every document on which parsing succeeds, every
record other than the synthetic root has exactly one parent (its single
parent slot is filled), and its level equals its parent's level plus 1;
the synthetic root (index 0) has level −1 and no parent. -/
theorem C4_level_invariant (doc : String) (g : Gedcom) (h : parse doc = .ok g) :
    (g.get 0).level = -1 ∧ (g.get 0).parent = none ∧
    ∀ i, 0 < i → i < g.elems.length →
      ∃ p, (g.get i).parent = some p ∧ (g.get p).level + 1 = (g.get i).level := by
  have hs : StoreInv g :=
    parseLines_inv (pyLines doc) 1 0 emptyGedcom storeInv_empty (by decide) g h
  exact ⟨hs.2.1, hs.2.2.1,
    fun i h1 h2 => (hs.2.2.2 i h1 h2).imp (fun p hp => ⟨hp.1, hp.2.2⟩)⟩

/-! ## Claim C3: ancestors contain the parents and are parent-closed -/

/-- Lemma: `get_family_members` succeeds on a family-tagged record and returns
exactly the filtered member list. -/
theorem gfm_ok_of_family (g : Gedcom) (f : Nat) (t : String)
    (hf : (g.get f).is_family = true) :
    get_family_members g f t = .ok (familyMembersCore g f t) := by
  simp [get_family_members, hf]

/-- A successful `get_family_members` call implies the family check
passed and the result is the filtered member list. -/
theorem gfm_ok_inv (g : Gedcom) (f : Nat) (t : String) (ms : List Nat)
    (h : get_family_members g f t = .ok ms) :
    (g.get f).is_family = true ∧ ms = familyMembersCore g f t := by
  cases hf : (g.get f).is_family with
  | false => simp [get_family_members, hf] at h
  | true =>
    simp [get_family_members, hf] at h
    exact ⟨rfl, h.symm⟩

/-- Every index returned by the `families` loop is family-tagged. -/
theorem familiesCore_is_family (g : Gedcom) (idx : Nat) (t : String) (f : Nat)
    (hf : f ∈ familiesCore g idx t) : (g.get f).is_family = true := by
  simp only [familiesCore, List.mem_filterMap] at hf
  obtain ⟨c, _, heq⟩ := hf
  by_cases h1 : (g.get c).tag = t
  · rw [if_pos h1] at heq
    cases h2 : g.dictGet (g.get c).value with
    | none => simp [h2] at heq
    | some f' =>
      simp only [h2] at heq
      by_cases h3 : (g.get f').is_family = true
      · rw [if_pos h3] at heq
        injection heq with h4
        rw [← h4]; exact h3
      · rw [if_neg h3] at heq; simp at heq
  · rw [if_neg h1] at heq; simp at heq

/-- Lemma: `families` succeeds on an individual and returns the filtered list. -/
theorem families_ok (g : Gedcom) (idx : Nat) (t : String)
    (hind : (g.get idx).is_individual = true) :
    families g idx t = .ok (familiesCore g idx t) := by
  simp [families, hind]

/-- Wife-role family members are among the parents-role members. -/
theorem fmc_wife_sub (g : Gedcom) (f x : Nat)
    (h : x ∈ familyMembersCore g f "WIFE") :
    x ∈ familyMembersCore g f "PARENTS" := by
  simp only [familyMembersCore, List.mem_filterMap] at h ⊢
  obtain ⟨c, hc, heq⟩ := h
  refine ⟨c, hc, ?_⟩
  by_cases h1 : roleMatch "WIFE" (g.get c).tag = true
  · rw [if_pos h1] at heq
    simp only [roleMatch] at h1
    simp only [roleMatch]
    simp at h1
    simp [h1]
    exact heq
  · rw [if_neg h1] at heq; simp at heq

/-- Husband-role family members are among the parents-role members. -/
theorem fmc_husb_sub (g : Gedcom) (f x : Nat)
    (h : x ∈ familyMembersCore g f "HUSB") :
    x ∈ familyMembersCore g f "PARENTS" := by
  simp only [familyMembersCore, List.mem_filterMap] at h ⊢
  obtain ⟨c, hc, heq⟩ := h
  refine ⟨c, hc, ?_⟩
  by_cases h1 : roleMatch "HUSB" (g.get c).tag = true
  · rw [if_pos h1] at heq
    simp only [roleMatch] at h1
    simp only [roleMatch]
    simp at h1
    simp [h1]
    exact heq
  · rw [if_neg h1] at heq; simp at heq

/-- The relation-annotation loop of the "NAT" branch succeeds on a
family-tagged record and appends, per annotation, the wife members for
a `_FREL Natural` and the husband members for a `_MREL Natural`. -/
theorem chilRecFold_eq (g : Gedcom) (fam : Nat) (hf : (g.get fam).is_family = true) :
    ∀ (cs acc : List Nat),
    chilRecFold g fam acc cs = .ok (acc ++ cs.flatMap (fun c =>
      if (g.get c).value = "Natural" then
        if (g.get c).tag = "_FREL" then familyMembersCore g fam "WIFE"
        else if (g.get c).tag = "_MREL" then familyMembersCore g fam "HUSB"
        else []
      else [])) := by
  intro cs
  induction cs with
  | nil => intro acc; simp [chilRecFold]
  | cons c cs ih =>
    intro acc
    simp only [chilRecFold, List.flatMap_cons]
    by_cases h1 : (g.get c).value = "Natural"
    · rw [if_pos h1, if_pos h1]
      by_cases h2 : (g.get c).tag = "_FREL"
      · rw [if_pos h2, if_pos h2, gfm_ok_of_family g fam "WIFE" hf]
        simp only [ih]
        simp
      · rw [if_neg h2, if_neg h2]
        by_cases h3 : (g.get c).tag = "_MREL"
        · rw [if_pos h3, if_pos h3, gfm_ok_of_family g fam "HUSB" hf]
          simp only [ih]
          simp
        · rw [if_neg h3, if_neg h3]
          simp only [ih]
          simp
    · rw [if_neg h1, if_neg h1, ih acc]
      simp

/-- The child-role scan of the "NAT" branch succeeds on a family-tagged
record and appends the annotation chunks of every child-role entry whose
value is the individual's pointer. -/
theorem famRecFold_eq (g : Gedcom) (indiPtr : String) (fam : Nat)
    (hf : (g.get fam).is_family = true) :
    ∀ (frs acc : List Nat),
    famRecFold g indiPtr fam acc frs = .ok (acc ++ frs.flatMap (fun fr =>
      if (g.get fr).tag = "CHIL" ∧ (g.get fr).value = indiPtr then
        (g.get fr).children.flatMap (fun c =>
          if (g.get c).value = "Natural" then
            if (g.get c).tag = "_FREL" then familyMembersCore g fam "WIFE"
            else if (g.get c).tag = "_MREL" then familyMembersCore g fam "HUSB"
            else []
          else [])
      else [])) := by
  intro frs
  induction frs with
  | nil => intro acc; simp [famRecFold]
  | cons fr frs ih =>
    intro acc
    simp only [famRecFold, List.flatMap_cons]
    by_cases h1 : (g.get fr).tag = "CHIL" ∧ (g.get fr).value = indiPtr
    · rw [if_pos h1, if_pos h1, chilRecFold_eq g fam hf]
      simp only [ih]
      simp
    · rw [if_neg h1, if_neg h1]
      simp only [ih]
      simp

/-- The family loop of `get_parents` in "NAT" mode, over families that
are all family-tagged, succeeds and appends each family's natural-
annotation chunks. -/
theorem famFold_nat_eq (g : Gedcom) (indiPtr : String) :
    ∀ (fams acc : List Nat), (∀ f ∈ fams, (g.get f).is_family = true) →
    famFold g indiPtr "NAT" acc fams = .ok (acc ++ fams.flatMap (fun fam =>
      (g.get fam).children.flatMap (fun fr =>
        if (g.get fr).tag = "CHIL" ∧ (g.get fr).value = indiPtr then
          (g.get fr).children.flatMap (fun c =>
            if (g.get c).value = "Natural" then
              if (g.get c).tag = "_FREL" then familyMembersCore g fam "WIFE"
              else if (g.get c).tag = "_MREL" then familyMembersCore g fam "HUSB"
              else []
            else [])
        else []))) := by
  intro fams
  induction fams with
  | nil => intro acc _; simp [famFold]
  | cons fam fams ih =>
    intro acc hall
    have hf : (g.get fam).is_family = true := hall fam (by simp)
    simp only [famFold, List.flatMap_cons, if_pos rfl]
    rw [famRecFold_eq g indiPtr fam hf]
    simp only [ih _ (fun f hm => hall f (by simp [hm]))]
    simp

/-- The family loop of `get_parents` in "ALL" mode (or any mode other
than "NAT"), over families that are all family-tagged, succeeds and
appends each family's parents-role members. -/
theorem famFold_all_eq (g : Gedcom) (indiPtr : String) (t : String) (ht : t ≠ "NAT") :
    ∀ (fams acc : List Nat), (∀ f ∈ fams, (g.get f).is_family = true) →
    famFold g indiPtr t acc fams = .ok (acc ++ fams.flatMap (fun fam =>
      familyMembersCore g fam "PARENTS")) := by
  intro fams
  induction fams with
  | nil => intro acc _; simp [famFold]
  | cons fam fams ih =>
    intro acc hall
    have hf : (g.get fam).is_family = true := hall fam (by simp)
    simp only [famFold, List.flatMap_cons, if_neg ht]
    rw [gfm_ok_of_family g fam "PARENTS" hf]
    simp only [ih _ (fun f hm => hall f (by simp [hm]))]
    simp

/-- Lemma: `get_parents` in "ALL" mode on an individual succeeds and returns
the concatenation, over the child-membership families, of each family's
parents-role members. -/
theorem get_parents_all_eq (g : Gedcom) (idx : Nat)
    (hind : (g.get idx).is_individual = true) :
    get_parents g idx "ALL" = .ok ((familiesCore g idx "FAMC").flatMap
      (fun fam => familyMembersCore g fam "PARENTS")) := by
  simp only [get_parents, hind, Bool.not_true, families_ok g idx "FAMC" hind]
  simp only [Bool.false_eq_true, if_false]
  exact famFold_all_eq g (g.get idx).pointer "ALL" (by decide) _ []
    (fun f hf => familiesCore_is_family g idx "FAMC" f hf)

/-- Lemma: `get_parents` in "NAT" mode on an individual succeeds and returns
the concatenation of the natural-annotation chunks of the
child-membership families. -/
theorem get_parents_nat_eq (g : Gedcom) (idx : Nat)
    (hind : (g.get idx).is_individual = true) :
    get_parents g idx "NAT" = .ok ((familiesCore g idx "FAMC").flatMap (fun fam =>
      (g.get fam).children.flatMap (fun fr =>
        if (g.get fr).tag = "CHIL" ∧ (g.get fr).value = (g.get idx).pointer then
          (g.get fr).children.flatMap (fun c =>
            if (g.get c).value = "Natural" then
              if (g.get c).tag = "_FREL" then familyMembersCore g fam "WIFE"
              else if (g.get c).tag = "_MREL" then familyMembersCore g fam "HUSB"
              else []
            else [])
        else []))) := by
  simp only [get_parents, hind, Bool.not_true, families_ok g idx "FAMC" hind]
  simp only [Bool.false_eq_true, if_false]
  exact famFold_nat_eq g (g.get idx).pointer _ []
    (fun f hf => familiesCore_is_family g idx "FAMC" f hf)

/-- A successful `get_parents` call implies the individual check passed. -/
theorem get_parents_ok_individual (g : Gedcom) (idx : Nat) (t : String)
    (ps : List Nat) (h : get_parents g idx t = .ok ps) :
    (g.get idx).is_individual = true := by
  cases hind : (g.get idx).is_individual with
  | false => simp [get_parents, hind] at h
  | true => rfl

/-- Natural-mode parents are among the all-mode parents. -/
theorem get_parents_nat_sub_all (g : Gedcom) (idx : Nat) (ps : List Nat)
    (h : get_parents g idx "ALL" = .ok ps) :
    ∃ pn, get_parents g idx "NAT" = .ok pn ∧ ∀ x, x ∈ pn → x ∈ ps := by
  have hind := get_parents_ok_individual g idx "ALL" ps h
  rw [get_parents_all_eq g idx hind] at h
  injection h with h
  refine ⟨_, get_parents_nat_eq g idx hind, ?_⟩
  intro x hx
  rw [← h]
  simp only [List.mem_flatMap] at hx ⊢
  obtain ⟨fam, hfam, fr, _, hx⟩ := hx
  refine ⟨fam, hfam, ?_⟩
  by_cases h1 : (g.get fr).tag = "CHIL" ∧ (g.get fr).value = (g.get idx).pointer
  · rw [if_pos h1] at hx
    simp only [List.mem_flatMap] at hx
    obtain ⟨c, _, hx⟩ := hx
    by_cases h2 : (g.get c).value = "Natural"
    · rw [if_pos h2] at hx
      by_cases h3 : (g.get c).tag = "_FREL"
      · rw [if_pos h3] at hx
        exact fmc_wife_sub g fam x hx
      · rw [if_neg h3] at hx
        by_cases h4 : (g.get c).tag = "_MREL"
        · rw [if_pos h4] at hx
          exact fmc_husb_sub g fam x hx
        · rw [if_neg h4] at hx; simp at hx
    · rw [if_neg h2] at hx; simp at hx
  · rw [if_neg h1] at hx; simp at hx

/-- Characterization of a successful `collectAnc` run: the accumulator
is contained in the result, every collected computation succeeded with
its contents contained in the result, and every result element comes
from the accumulator or one of the collected computations. -/
theorem collectAnc_ok (rs : List (Except String (List Nat))) :
    ∀ (acc res : List Nat), collectAnc acc rs = .ok res →
      (∀ x ∈ acc, x ∈ res) ∧
      (∀ r ∈ rs, ∃ a, r = .ok a ∧ ∀ x ∈ a, x ∈ res) ∧
      (∀ x ∈ res, x ∈ acc ∨ ∃ r ∈ rs, ∃ a, r = .ok a ∧ x ∈ a) := by
  induction rs with
  | nil =>
    intro acc res h
    simp only [collectAnc, Except.ok.injEq] at h
    subst h
    exact ⟨fun x hx => hx, by simp, fun x hx => Or.inl hx⟩
  | cons r rs ih =>
    intro acc res h
    cases r with
    | error e => simp [collectAnc] at h
    | ok a =>
      simp only [collectAnc] at h
      obtain ⟨h1, h2, h3⟩ := ih (acc ++ a) res h
      refine ⟨fun x hx => h1 x (by simp [hx]), ?_, ?_⟩
      · intro r hr
        rcases List.mem_cons.mp hr with hr1 | hr2
        · exact hr1 ▸ ⟨a, rfl, fun x hx => h1 x (by simp [hx])⟩
        · exact h2 r hr2
      · intro x hx
        rcases h3 x hx with hacc | ⟨r, hr, a', ha', hxa'⟩
        · rcases List.mem_append.mp hacc with hl | hl
          · exact Or.inl hl
          · exact Or.inr ⟨.ok a, by simp, a, rfl, hl⟩
        · exact Or.inr ⟨r, by simp [hr], a', ha', hxa'⟩

/-- Main induction for claim C3 in "ALL" mode: a successful
`get_ancestors` call contains the individual's parents and is closed
under all-mode parents. -/
theorem ancestors_all_closed (g : Gedcom) :
    ∀ (fuel idx : Nat) (l : List Nat), get_ancestors g fuel idx "ALL" = .ok l →
    (∃ ps, get_parents g idx "ALL" = .ok ps ∧ ∀ x ∈ ps, x ∈ l) ∧
    (∀ q ∈ l, ∃ qs, get_parents g q "ALL" = .ok qs ∧ ∀ x ∈ qs, x ∈ l) := by
  intro fuel
  induction fuel with
  | zero => intro idx l h; simp [get_ancestors] at h
  | succ n ih =>
    intro idx l h
    simp only [get_ancestors] at h
    cases hind : (g.get idx).is_individual with
    | false => simp [hind] at h
    | true =>
      simp only [hind, Bool.not_true, Bool.false_eq_true, if_false] at h
      cases hp : get_parents g idx "ALL" with
      | error e => simp [hp] at h
      | ok parents =>
        simp only [hp] at h
        obtain ⟨hacc, hall, hsrc⟩ := collectAnc_ok _ _ _ h
        refine ⟨⟨parents, rfl, hacc⟩, ?_⟩
        intro q hq
        rcases hsrc q hq with hqp | ⟨r, hr, a, ha, hqa⟩
        · have hmem : get_ancestors g n q "ALL" ∈
              parents.map (fun p => get_ancestors g n p "ALL") :=
            List.mem_map_of_mem _ hqp
          obtain ⟨aq, haq, haqsub⟩ := hall _ hmem
          obtain ⟨⟨qs, hqs, hqssub⟩, _⟩ := ih q aq haq
          exact ⟨qs, hqs, fun x hx => haqsub x (hqssub x hx)⟩
        · obtain ⟨p, hp', hrp⟩ := List.mem_map.mp hr
          obtain ⟨a2, ha2, ha2sub⟩ := hall r hr
          have hra : get_ancestors g n p "ALL" = .ok a := hrp ▸ ha
          have haa2 : a = a2 := by
            rw [ha] at ha2
            injection ha2
          subst haa2
          obtain ⟨_, hclosure⟩ := ih p a hra
          obtain ⟨qs, hqs, hqssub⟩ := hclosure q hqa
          exact ⟨qs, hqs, fun x hx => ha2sub x (hqssub x hx)⟩

/-- Claim C3: for mode "ALL" or "NAT", a successful
`get_ancestors(x, mode)` result contains `get_parents(x, mode)` as a
subset and is closed under `get_parents` with the same mode: every
parent (in that mode) of every listed record is also listed.  (The fuel
hypothesis models the source's unguarded recursion, which terminates
exactly on acyclic pedigrees; a successful run is one that returned a
list.) -/
theorem C3_ancestors_closed (g : Gedcom) (fuel idx : Nat) (mode : String)
    (l : List Nat) (hmode : mode = "ALL" ∨ mode = "NAT")
    (h : get_ancestors g fuel idx mode = .ok l) :
    (∃ ps, get_parents g idx mode = .ok ps ∧ ∀ x ∈ ps, x ∈ l) ∧
    (∀ q ∈ l, ∃ qs, get_parents g q mode = .ok qs ∧ ∀ x ∈ qs, x ∈ l) := by
  rcases hmode with h1 | h1
  · subst h1
    exact ancestors_all_closed g fuel idx l h
  · subst h1
    cases fuel with
    | zero => simp [get_ancestors] at h
    | succ n =>
      simp only [get_ancestors] at h
      cases hind : (g.get idx).is_individual with
      | false => simp [hind] at h
      | true =>
        simp only [hind, Bool.not_true, Bool.false_eq_true, if_false] at h
        cases hp : get_parents g idx "NAT" with
        | error e => simp [hp] at h
        | ok parents =>
          simp only [hp] at h
          obtain ⟨hacc, hall, hsrc⟩ := collectAnc_ok _ _ _ h
          refine ⟨⟨parents, rfl, hacc⟩, ?_⟩
          intro q hq
          rcases hsrc q hq with hqp | ⟨r, hr, a, ha, hqa⟩
          · have hmem : get_ancestors g n q "ALL" ∈
                parents.map (fun p => get_ancestors g n p "ALL") :=
              List.mem_map_of_mem _ hqp
            obtain ⟨aq, haq, haqsub⟩ := hall _ hmem
            obtain ⟨⟨qs, hqs, hqssub⟩, _⟩ := ancestors_all_closed g n q aq haq
            obtain ⟨qn, hqn, hqnsub⟩ := get_parents_nat_sub_all g q qs hqs
            exact ⟨qn, hqn, fun x hx => haqsub x (hqssub x (hqnsub x hx))⟩
          · obtain ⟨p, hp', hrp⟩ := List.mem_map.mp hr
            obtain ⟨a2, ha2, ha2sub⟩ := hall r hr
            have hra : get_ancestors g n p "ALL" = .ok a := hrp ▸ ha
            have haa2 : a = a2 := by
              rw [ha] at ha2
              injection ha2
            subst haa2
            obtain ⟨_, hclosure⟩ := ancestors_all_closed g n p a hra
            obtain ⟨qs, hqs, hqssub⟩ := hclosure q hqa
            obtain ⟨qn, hqn, hqnsub⟩ := get_parents_nat_sub_all g q qs hqs
            exact ⟨qn, hqn, fun x hx => ha2sub x (hqssub x (hqnsub x hx))⟩

/-- A three-generation chain: individual @I1@ (element 1) is a child of
family @F1@ (element 3) whose husband @I2@ (element 7) and wife @I3@
(element 8) have no further families. -/
def c3doc : String :=
  "0 @I1@ INDI\r\n1 FAMC @F1@\r\n0 @F1@ FAM\r\n1 HUSB @I2@\r\n" ++
  "1 WIFE @I3@\r\n1 CHIL @I1@\r\n0 @I2@ INDI\r\n0 @I3@ INDI\r\n"

/-- The parsed store of `c3doc`. -/
def c3g : Gedcom := parseD c3doc

/-- Witness for C3 on the concrete chain `c3g`: all-mode ancestors of
element 1 are [7, 8], and theorem C3_ancestors_closed applies. -/
theorem C3_witness :
    get_ancestors c3g 5 1 "ALL" = .ok [7, 8] ∧
    ((∃ ps, get_parents c3g 1 "ALL" = .ok ps ∧ ∀ x ∈ ps, x ∈ ([7, 8] : List Nat)) ∧
     (∀ q ∈ ([7, 8] : List Nat), ∃ qs, get_parents c3g q "ALL" = .ok qs ∧
        ∀ x ∈ qs, x ∈ ([7, 8] : List Nat))) :=
  ⟨by decide, C3_ancestors_closed c3g 5 1 "ALL" [7, 8] (Or.inl rfl) (by decide)⟩

/-- Witness for C4 on the concrete three-line header document. -/
theorem C4_witness :
    parse c2crlf = .ok c2g ∧
    ((c2g.get 0).level = -1 ∧ (c2g.get 0).parent = none ∧
     ∀ i, 0 < i → i < c2g.elems.length →
       ∃ p, (c2g.get i).parent = some p ∧
         (c2g.get p).level + 1 = (c2g.get i).level) :=
  ⟨by decide, C4_level_invariant c2crlf c2g (by decide)⟩


/-! ## Claims C6 and C7: the amended statements -/

/-- Lemma: `filterMap` with a pointwise-stronger function yields an
order-preserving sublist. -/
theorem filterMap_mono_sublist {α β : Type} (f h : α → Option β)
    (hfh : ∀ a b, f a = some b → h a = some b) (l : List α) :
    (l.filterMap f).Sublist (l.filterMap h) := by
  induction l with
  | nil => simp
  | cons a l ih =>
    simp only [List.filterMap_cons]
    cases hf : f a with
    | none =>
      cases hh : h a with
      | none => exact ih
      | some b => exact ih.cons b
    | some b =>
      rw [hfh a b hf]
      exact ih.cons₂ b

/-- Membership in the family-member loop's output. -/
theorem mem_fmc_iff (g : Gedcom) (fam : Nat) (t : String) (x : Nat) :
    x ∈ familyMembersCore g fam t ↔ ∃ c ∈ (g.get fam).children,
      roleMatch t (g.get c).tag = true ∧ g.dictGet (g.get c).value = some x := by
  simp only [familyMembersCore, List.mem_filterMap]
  constructor
  · rintro ⟨c, hc, heq⟩
    by_cases hr : roleMatch t (g.get c).tag = true
    · rw [if_pos hr] at heq
      exact ⟨c, hc, hr, heq⟩
    · rw [if_neg hr] at heq
      simp at heq
  · rintro ⟨c, hc, hr, hd⟩
    exact ⟨c, hc, by rw [if_pos hr]; exact hd⟩

/-- The default "ALL" member filter accepts exactly what one of the
husband, wife or child filters accepts. -/
theorem roleMatch_all_iff (t : String) :
    roleMatch "ALL" t = true ↔
      (roleMatch "HUSB" t = true ∨ roleMatch "WIFE" t = true ∨
       roleMatch "CHIL" t = true) := by
  simp [roleMatch, or_assoc]

/-- Claim C6 as amended: for a family-tagged record, the "ALL" call
succeeds, its result is the set union of the husband-, wife- and
child-filtered calls (same members), and each filtered call's result is
an order-preserving sublist of the "ALL" result, which lists one
occurrence per matching child entry in the family's child order — so a
member referenced by several child entries appears several times, and
the claim's "no duplicate entries" does not hold in general. -/
theorem C6_family_members_union (g : Gedcom) (fam : Nat)
    (hf : (g.get fam).is_family = true) :
    get_family_members g fam "ALL" = .ok (familyMembersCore g fam "ALL") ∧
    get_family_members g fam "HUSB" = .ok (familyMembersCore g fam "HUSB") ∧
    get_family_members g fam "WIFE" = .ok (familyMembersCore g fam "WIFE") ∧
    get_family_members g fam "CHIL" = .ok (familyMembersCore g fam "CHIL") ∧
    (∀ x, x ∈ familyMembersCore g fam "ALL" ↔
      (x ∈ familyMembersCore g fam "HUSB" ∨ x ∈ familyMembersCore g fam "WIFE" ∨
       x ∈ familyMembersCore g fam "CHIL")) ∧
    (familyMembersCore g fam "HUSB").Sublist (familyMembersCore g fam "ALL") ∧
    (familyMembersCore g fam "WIFE").Sublist (familyMembersCore g fam "ALL") ∧
    (familyMembersCore g fam "CHIL").Sublist (familyMembersCore g fam "ALL") := by
  refine ⟨gfm_ok_of_family g fam "ALL" hf, gfm_ok_of_family g fam "HUSB" hf,
    gfm_ok_of_family g fam "WIFE" hf, gfm_ok_of_family g fam "CHIL" hf, ?_, ?_, ?_, ?_⟩
  · intro x
    simp only [mem_fmc_iff]
    constructor
    · rintro ⟨c, hc, hr, hd⟩
      rcases (roleMatch_all_iff _).mp hr with h | h | h
      · exact Or.inl ⟨c, hc, h, hd⟩
      · exact Or.inr (Or.inl ⟨c, hc, h, hd⟩)
      · exact Or.inr (Or.inr ⟨c, hc, h, hd⟩)
    · rintro (⟨c, hc, hr, hd⟩ | ⟨c, hc, hr, hd⟩ | ⟨c, hc, hr, hd⟩)
      · exact ⟨c, hc, (roleMatch_all_iff _).mpr (Or.inl hr), hd⟩
      · exact ⟨c, hc, (roleMatch_all_iff _).mpr (Or.inr (Or.inl hr)), hd⟩
      · exact ⟨c, hc, (roleMatch_all_iff _).mpr (Or.inr (Or.inr hr)), hd⟩
  · refine filterMap_mono_sublist _ _ ?_ _
    intro c x h
    by_cases hr : roleMatch "HUSB" (g.get c).tag = true
    · rw [if_pos ((roleMatch_all_iff _).mpr (Or.inl hr))]
      rwa [if_pos hr] at h
    · rw [if_neg hr] at h; simp at h
  · refine filterMap_mono_sublist _ _ ?_ _
    intro c x h
    by_cases hr : roleMatch "WIFE" (g.get c).tag = true
    · rw [if_pos ((roleMatch_all_iff _).mpr (Or.inr (Or.inl hr)))]
      rwa [if_pos hr] at h
    · rw [if_neg hr] at h; simp at h
  · refine filterMap_mono_sublist _ _ ?_ _
    intro c x h
    by_cases hr : roleMatch "CHIL" (g.get c).tag = true
    · rw [if_pos ((roleMatch_all_iff _).mpr (Or.inr (Or.inr hr)))]
      rwa [if_pos hr] at h
    · rw [if_neg hr] at h; simp at h

/-- Witness for C6 on the concrete family `c6g` (family element 2,
whose two child entries both resolve to element 1). -/
theorem C6_witness :
    get_family_members c6g 2 "ALL" = .ok (familyMembersCore c6g 2 "ALL") ∧
    (∀ x, x ∈ familyMembersCore c6g 2 "ALL" ↔
      (x ∈ familyMembersCore c6g 2 "HUSB" ∨ x ∈ familyMembersCore c6g 2 "WIFE" ∨
       x ∈ familyMembersCore c6g 2 "CHIL")) ∧
    (familyMembersCore c6g 2 "CHIL").Sublist (familyMembersCore c6g 2 "ALL") :=
  ⟨(C6_family_members_union c6g 2 (by decide)).1,
   (C6_family_members_union c6g 2 (by decide)).2.2.2.2.1,
   (C6_family_members_union c6g 2 (by decide)).2.2.2.2.2.2.2⟩

/-- The date loop of `marriage_years` never reaches the `IndexError`
when every `DATE` value has at least one whitespace-separated token, and
appends the integer values of the parseable final tokens. -/
theorem yearFold_eq (g : Gedcom) :
    ∀ (mds : List Nat),
    (∀ md ∈ mds, (g.get md).tag = "DATE" → pySplit (g.get md).value ≠ []) →
    ∀ (acc : List Int),
    yearFold g acc mds = .ok (acc ++ mds.filterMap (fun md =>
      if (g.get md).tag = "DATE" then
        ((pySplit (g.get md).value).getLast?.bind pyInt)
      else none)) := by
  intro mds
  induction mds with
  | nil => intro _ acc; simp [yearFold]
  | cons md mds ih =>
    intro hne acc
    have ih' := ih (fun m hm hd => hne m (by simp [hm]) hd)
    simp only [yearFold, List.filterMap_cons]
    by_cases ht : (g.get md).tag = "DATE"
    · rw [if_pos ht, if_pos ht]
      cases hlast : (pySplit (g.get md).value).getLast? with
      | none =>
        exact absurd (List.getLast?_eq_none_iff.mp hlast) (hne md (by simp) ht)
      | some tok =>
        cases hint : pyInt tok with
        | some n => simp [hlast, hint, ih']
        | none => simp [hlast, hint, ih']
    · rw [if_neg ht, if_neg ht]
      simp [ih']

/-- The marriage-event loop of `marriage_years` under the same
no-empty-date hypothesis. -/
theorem marrFold_eq (g : Gedcom) :
    ∀ (fds : List Nat),
    (∀ fd ∈ fds, (g.get fd).tag = "MARR" → ∀ md ∈ (g.get fd).children,
      (g.get md).tag = "DATE" → pySplit (g.get md).value ≠ []) →
    ∀ (acc : List Int),
    marrFold g acc fds = .ok (acc ++ fds.flatMap (fun fd =>
      if (g.get fd).tag = "MARR" then
        (g.get fd).children.filterMap (fun md =>
          if (g.get md).tag = "DATE" then
            ((pySplit (g.get md).value).getLast?.bind pyInt)
          else none)
      else [])) := by
  intro fds
  induction fds with
  | nil => intro _ acc; simp [marrFold]
  | cons fd fds ih =>
    intro hne acc
    have ih' := ih (fun f hf => hne f (by simp [hf]))
    simp only [marrFold, List.flatMap_cons]
    by_cases ht : (g.get fd).tag = "MARR"
    · rw [if_pos ht, if_pos ht]
      have hy := yearFold_eq g ((g.get fd).children)
        (fun md hmd => hne fd (by simp) ht md hmd)
      simp [hy, ih']
    · rw [if_neg ht, if_neg ht]
      simp [ih']

/-- The family loop of `marriage_years` under the same hypothesis. -/
theorem famsFold_eq (g : Gedcom) :
    ∀ (fams : List Nat),
    (∀ f ∈ fams, ∀ fd ∈ (g.get f).children, (g.get fd).tag = "MARR" →
      ∀ md ∈ (g.get fd).children,
      (g.get md).tag = "DATE" → pySplit (g.get md).value ≠ []) →
    ∀ (acc : List Int),
    famsFold g acc fams = .ok (acc ++ fams.flatMap (fun f =>
      (g.get f).children.flatMap (fun fd =>
        if (g.get fd).tag = "MARR" then
          (g.get fd).children.filterMap (fun md =>
            if (g.get md).tag = "DATE" then
              ((pySplit (g.get md).value).getLast?.bind pyInt)
            else none)
        else []))) := by
  intro fams
  induction fams with
  | nil => intro _ acc; simp [famsFold]
  | cons f fams ih =>
    intro hne acc
    have ih' := ih (fun f' hf' => hne f' (by simp [hf']))
    simp only [famsFold, List.flatMap_cons]
    have hm := marrFold_eq g ((g.get f).children) (fun fd hfd => hne f (by simp) fd hfd)
    simp [hm, ih']

/-- Claim C7 as amended: for an individual none of whose marriage
`DATE` values is empty or all-whitespace, `marriage_years` does not
raise: it returns the integer values of the final whitespace-delimited
token of each date value, silently discarding tokens that are not
parseable as integers.  (On an empty or all-whitespace date value the
source raises an `IndexError`, since the `[-1]` subscript sits outside
the `try`/`except ValueError` — see the counterexample.) -/
theorem C7_marriage_years (g : Gedcom) (idx : Nat)
    (hind : (g.get idx).is_individual = true)
    (hdates : ∀ f ∈ familiesCore g idx "FAMS", ∀ fd ∈ (g.get f).children,
      (g.get fd).tag = "MARR" → ∀ md ∈ (g.get fd).children,
      (g.get md).tag = "DATE" → pySplit (g.get md).value ≠ []) :
    marriage_years g idx = .ok ((familiesCore g idx "FAMS").flatMap (fun f =>
      (g.get f).children.flatMap (fun fd =>
        if (g.get fd).tag = "MARR" then
          (g.get fd).children.filterMap (fun md =>
            if (g.get md).tag = "DATE" then
              ((pySplit (g.get md).value).getLast?.bind pyInt)
            else none)
        else []))) := by
  simp only [marriage_years, hind, Bool.not_true, Bool.false_eq_true, if_false,
    families_ok g idx "FAMS" hind]
  exact famsFold_eq g _ hdates []

/-- Witness for C7 on the concrete store `c7okg`, whose marriage event
has the parsable date "28 Feb 2002" and the unparsable date "FooBar":
the call returns [2002]. -/
theorem C7_witness :
    marriage_years c7okg 1 = .ok ((familiesCore c7okg 1 "FAMS").flatMap (fun f =>
      (c7okg.get f).children.flatMap (fun fd =>
        if (c7okg.get fd).tag = "MARR" then
          (c7okg.get fd).children.filterMap (fun md =>
            if (c7okg.get md).tag = "DATE" then
              ((pySplit (c7okg.get md).value).getLast?.bind pyInt)
            else none)
        else []))) ∧
    marriage_years c7okg 1 = .ok [2002] :=
  ⟨C7_marriage_years c7okg 1 (by decide) (by decide), by decide⟩
